import Mathlib

/-! DynamoDB chat message history.

A shallow embedding of `dynamodb_chat_history/dynamodb.go`.

The Go methods call a remote DynamoDB service through `h.client`.  Here the client is an
explicit record of three state-passing functions over a state type `σ`, the six public methods
and the two private helpers are functions over that record, and an in-memory table store gives
the list-append semantics of the update expression the code sends.
-/

set_option autoImplicit false

namespace DynamoDBChatHistory

/-! ## Values exchanged with the store -/

/-- The `context.Context` values a caller can hand to a method. -/
inductive Context where
  | Background
  | TODO
  | WithCancel (parent : Context)
  | WithTimeout (parent : Context) (millis : Nat)
  | WithValue (parent : Context) (key : String) (val : String)
  deriving DecidableEq, Repr

/-- The union `types.AttributeValue` of the DynamoDB SDK, one constructor per member type.
A Go `map[string]AttributeValue` is an association list read with `List.lookup`. -/
inductive AttributeValue where
  | B (Value : List Nat)
  | BOOL (Value : Bool)
  | BS (Value : List (List Nat))
  | L (Value : List AttributeValue)
  | M (Value : List (String × AttributeValue))
  | N (Value : String)
  | NS (Value : List String)
  | NULL (Value : Bool)
  | S (Value : String)
  | SS (Value : List String)

/-- An item (row) of a table: attribute name to attribute value. -/
abbrev Item := List (String × AttributeValue)

/-- The errors a remote call can return. -/
inductive StoreError where
  | ResourceNotFoundException
  | ValidationException (message : String)
  | RequestFailure (message : String)
  deriving DecidableEq, Repr

/-- The fields of `dynamodb.UpdateItemInput` the code fills in. -/
structure UpdateItemInput where
  TableName : String
  Key : Item
  UpdateExpression : String
  ExpressionAttributeNames : List (String × String)
  ExpressionAttributeValues : List (String × AttributeValue)

/-- The fields of `dynamodb.GetItemInput` the code fills in. -/
structure GetItemInput where
  TableName : String
  Key : Item

/-- The field of `dynamodb.GetItemOutput` the code reads; the map is empty when no row matches. -/
structure GetItemOutput where
  Item : Item

/-- The field of `dynamodb.DeleteTableInput` the code fills in. -/
structure DeleteTableInput where
  TableName : String

/-- The three methods of `*dynamodb.Client` the code calls, as state-passing functions over the
state `σ` of the remote service.  `UpdateItem` and `DeleteTable` return the Go `error`
(`none` is `nil`); their outputs are discarded by the code. -/
structure Client (σ : Type) where
  UpdateItem : Context → UpdateItemInput → σ → Option StoreError × σ
  GetItem : Context → GetItemInput → σ → Except StoreError GetItemOutput × σ
  DeleteTable : Context → DeleteTableInput → σ → Option StoreError × σ

/-! ## Chat messages (`schema.ChatMessage`) -/

/-- Modelled from the spec: the message types behind the interface `schema.ChatMessage` of the
langchaingo library, which is not part of the repository.  A message has a role and a content;
human and AI are the two roles the component produces, the others are the further roles of the
library.  The fields are those `GetType` and `GetContent` read. -/
inductive ChatMessage where
  | AIChatMessage (Content : String)
  | HumanChatMessage (Content : String)
  | SystemChatMessage (Content : String)
  | GenericChatMessage (Content : String) (Role : String)
  | FunctionChatMessage (Name : String) (Content : String)
  deriving DecidableEq, Repr

/-- The string constant `schema.ChatMessageTypeAI`. -/
def ChatMessageTypeAI : String := "ai"

/-- The string constant `schema.ChatMessageTypeHuman`. -/
def ChatMessageTypeHuman : String := "human"

/-- The method `GetType`, as the string the code converts it to. -/
def ChatMessage.GetType : ChatMessage → String
  | .AIChatMessage _ => ChatMessageTypeAI
  | .HumanChatMessage _ => ChatMessageTypeHuman
  | .SystemChatMessage _ => "system"
  | .GenericChatMessage _ _ => "generic"
  | .FunctionChatMessage _ _ => "function"

/-- The method `GetContent`. -/
def ChatMessage.GetContent : ChatMessage → String
  | .AIChatMessage c => c
  | .HumanChatMessage c => c
  | .SystemChatMessage c => c
  | .GenericChatMessage c _ => c
  | .FunctionChatMessage _ c => c

/-- A message of one of the two roles the reader recognises. -/
def ChatMessage.isHumanOrAI : ChatMessage → Bool
  | .AIChatMessage _ => true
  | .HumanChatMessage _ => true
  | _ => false

/-! ## The history handle and its methods -/

/-- The struct `DynamoDBChatMessageHistory`.  The source declares the key value field as
`PrimaryKeyValue` and reads it as `primaryKeyValue`; it is one field here. -/
structure DynamoDBChatMessageHistory (σ : Type) where
  tableName : String
  primaryKeyName : String
  primaryKeyValue : String
  client : Client σ

/-- What a Go function call ends in: it returns its results, or a run-time panic unwinds it. -/
inductive Outcome (α : Type) where
  | returned (value : α)
  | panicked (reason : String)
  deriving DecidableEq, Repr

/-- The constant `updateExpression`. -/
def updateExpression : String :=
  "SET #messages = list_append(if_not_exists(#messages, :empty_list), :newMessage)"

/-- The branch of `getMessages` that picks the message type from the stored `type` string;
`none` is the nil interface value the variable `chatMessage` keeps when neither test matches. -/
def chatMessageOf (messageType content : String) : Option ChatMessage :=
  if messageType = ChatMessageTypeAI then some (.AIChatMessage content)
  else if messageType = ChatMessageTypeHuman then some (.HumanChatMessage content)
  else none

/-- The loop of `getMessages` over `listOfMessages.Value`, with `chatMessages` as accumulator.
Each of the three type assertions panics on a value of another dynamic type (a missing map key
reads as nil, which fails the assertion as well). -/
def getMessagesLoop :
    List AttributeValue → List (Option ChatMessage) → Outcome (List (Option ChatMessage))
  | [], chatMessages => .returned chatMessages
  | m :: rest, chatMessages =>
    match m with
    | .M message =>
      match message.lookup "content" with
      | some (.S content) =>
        match message.lookup "type" with
        | some (.S messageType) =>
          getMessagesLoop rest (chatMessages ++ [chatMessageOf messageType content])
        | _ => .panicked "interface conversion: not *types.AttributeValueMemberS"
      | _ => .panicked "interface conversion: not *types.AttributeValueMemberS"
    | _ => .panicked "interface conversion: not *types.AttributeValueMemberM"

namespace DynamoDBChatMessageHistory

variable {σ : Type}

/-- The request `updateItemInput` that `addMessage` builds. -/
def updateItemInput (h : DynamoDBChatMessageHistory σ) (text messageType : String) :
    UpdateItemInput :=
  { TableName := h.tableName
    Key := [(h.primaryKeyName, .S h.primaryKeyValue)]
    UpdateExpression := updateExpression
    ExpressionAttributeNames := [("#messages", "messages")]
    ExpressionAttributeValues :=
      [(":newMessage", .L [.M [("type", .S messageType), ("content", .S text)]]),
       (":empty_list", .L [])] }

/-- The request `getItemInput` that `getMessages` builds. -/
def getItemInput (h : DynamoDBChatMessageHistory σ) : GetItemInput :=
  { TableName := h.tableName
    Key := [(h.primaryKeyName, .S h.primaryKeyValue)] }

/-- The private method `addMessage`: one `UpdateItem` call; its context parameter is blank. -/
def addMessage (h : DynamoDBChatMessageHistory σ) (_ : Context) (text messageType : String)
    (s : σ) : Option StoreError × σ :=
  match h.client.UpdateItem Context.Background (h.updateItemInput text messageType) s with
  | (some err, s1) => (some err, s1)
  | (none, s1) => (none, s1)

/-- The private method `getMessages`: one `GetItem` call, then the decoding loop.  A nil slice
and an empty slice are both the empty list. -/
def getMessages (h : DynamoDBChatMessageHistory σ) (s : σ) :
    Outcome (List (Option ChatMessage) × Option StoreError) × σ :=
  match h.client.GetItem Context.Background h.getItemInput s with
  | (.error err, s1) => (.returned ([], some err), s1)
  | (.ok result, s1) =>
    match result.Item.lookup "messages" with
    | none => (.returned ([], none), s1)
    | some (.L listOfMessages) =>
      match getMessagesLoop listOfMessages [] with
      | .returned chatMessages => (.returned (chatMessages, none), s1)
      | .panicked reason => (.panicked reason, s1)
    | some _ => (.panicked "interface conversion: not *types.AttributeValueMemberL", s1)

/-- The method `AddMessage`. -/
def AddMessage (h : DynamoDBChatMessageHistory σ) (_ : Context) (message : ChatMessage)
    (s : σ) : Option StoreError × σ :=
  h.addMessage Context.Background message.GetContent message.GetType s

/-- The method `AddUserMessage`. -/
def AddUserMessage (h : DynamoDBChatMessageHistory σ) (_ : Context) (text : String)
    (s : σ) : Option StoreError × σ :=
  h.addMessage Context.Background text "human" s

/-- The method `AddAIMessage`. -/
def AddAIMessage (h : DynamoDBChatMessageHistory σ) (_ : Context) (text : String)
    (s : σ) : Option StoreError × σ :=
  h.addMessage Context.Background text "ai" s

/-- The method `Clear`: one `DeleteTable` call. -/
def Clear (h : DynamoDBChatMessageHistory σ) (_ : Context) (s : σ) : Option StoreError × σ :=
  match h.client.DeleteTable Context.Background { TableName := h.tableName } s with
  | (some err, s1) => (some err, s1)
  | (none, s1) => (none, s1)

/-- The method `SetMessages`: the `for range` loop, returning at the first non-nil error. -/
def SetMessages (h : DynamoDBChatMessageHistory σ) (ctx : Context) :
    List ChatMessage → σ → Option StoreError × σ
  | [], s => (none, s)
  | message :: rest, s =>
    match h.AddMessage Context.Background message s with
    | (some err, s1) => (some err, s1)
    | (none, s1) => SetMessages h ctx rest s1

/-- The method `Messages`. -/
def Messages (h : DynamoDBChatMessageHistory σ) (_ : Context) (s : σ) :
    Outcome (List (Option ChatMessage) × Option StoreError) × σ :=
  h.getMessages s

/-- The handle with the same configuration and another client. -/
def withClient {τ : Type} (h : DynamoDBChatMessageHistory σ) (c : Client τ) :
    DynamoDBChatMessageHistory τ :=
  { tableName := h.tableName
    primaryKeyName := h.primaryKeyName
    primaryKeyValue := h.primaryKeyValue
    client := c }

end DynamoDBChatMessageHistory

/-! ## The remote store

DynamoDB itself is outside the repository.  The tables below are those the tests create: one
hash key of string type, pay-per-request.  A deletion is applied at once, which is the state the
service reaches when the deletion has completed. -/

/-- Modelled from the spec: a DynamoDB table with a string hash key, its rows indexed by the
value of the key attribute.  A stored row holds its key attribute as well. -/
structure Table where
  KeyName : String
  Items : String → Option Item

/-- Modelled from the spec: the tables of the store by name. -/
abbrev Store := String → Option Table

/-- The row of a key value as an update sees it: the stored row, or a new row that holds the
key attribute alone. -/
def Table.row (t : Table) (v : String) : Item :=
  (t.Items v).getD [(t.KeyName, .S v)]

/-- The table with the row of a key value put or replaced. -/
def Table.withItem (t : Table) (v : String) (item : Item) : Table :=
  { t with Items := Function.update t.Items v (some item) }

/-- The write of one attribute into an attribute map. -/
def setAttr (name : String) (v : AttributeValue) (item : Item) : Item :=
  (name, v) :: item.filter (fun p => p.1 != name)

/-- Modelled from the spec: the service side of `UpdateItem` for the one update expression the
code sends, `SET #messages = list_append(if_not_exists(#messages, :empty_list), :newMessage)`.
The table must exist, the key must be the string hash key of the table, the placeholders must
resolve, the target must not be the key attribute, and both operands of `list_append` must be
lists; the row is created when absent. -/
def Store.UpdateItem (_ : Context) (inp : UpdateItemInput) (db : Store) :
    Option StoreError × Store :=
  match db inp.TableName with
  | none => (some .ResourceNotFoundException, db)
  | some t =>
    match inp.Key with
    | [(k, .S v)] =>
      if k ≠ t.KeyName then
        (some (.ValidationException "key does not match the schema"), db)
      else if inp.UpdateExpression ≠ updateExpression then
        (some (.ValidationException "update expression"), db)
      else
        match inp.ExpressionAttributeNames.lookup "#messages",
              inp.ExpressionAttributeValues.lookup ":empty_list",
              inp.ExpressionAttributeValues.lookup ":newMessage" with
        | some attr, some emptyList, some newMessage =>
          if attr = t.KeyName then
            (some (.ValidationException "cannot update a key attribute"), db)
          else
            match ((t.row v).lookup attr).getD emptyList, newMessage with
            | .L old, .L new =>
              (none, Function.update db inp.TableName
                (some (t.withItem v (setAttr attr (.L (old ++ new)) (t.row v)))))
            | _, _ => (some (.ValidationException "operand type for list_append"), db)
        | _, _, _ => (some (.ValidationException "unresolved placeholder"), db)
    | _ => (some (.ValidationException "key does not match the schema"), db)

/-- Modelled from the spec: the service side of `GetItem`; no matching row gives an empty map. -/
def Store.GetItem (_ : Context) (inp : GetItemInput) (db : Store) :
    Except StoreError GetItemOutput × Store :=
  match db inp.TableName with
  | none => (.error .ResourceNotFoundException, db)
  | some t =>
    match inp.Key with
    | [(k, .S v)] =>
      if k ≠ t.KeyName then
        (.error (.ValidationException "key does not match the schema"), db)
      else (.ok { Item := (t.Items v).getD [] }, db)
    | _ => (.error (.ValidationException "key does not match the schema"), db)

/-- Modelled from the spec: the service side of `DeleteTable`; the table and all its rows go. -/
def Store.DeleteTable (_ : Context) (inp : DeleteTableInput) (db : Store) :
    Option StoreError × Store :=
  match db inp.TableName with
  | none => (some .ResourceNotFoundException, db)
  | some _ => (none, Function.update db inp.TableName none)

/-- The client of the in-memory store. -/
def memClient : Client Store :=
  { UpdateItem := Store.UpdateItem
    GetItem := Store.GetItem
    DeleteTable := Store.DeleteTable }

/-- A history handle on the in-memory store. -/
def memHistory (tableName primaryKeyName primaryKeyValue : String) :
    DynamoDBChatMessageHistory Store :=
  { tableName := tableName
    primaryKeyName := primaryKeyName
    primaryKeyValue := primaryKeyValue
    client := memClient }

/-- The `messages` attribute stored for a key value of a table, if any. -/
def storedMessages (db : Store) (tableName primaryKeyValue : String) : Option AttributeValue :=
  (db tableName).bind (fun t => (t.Items primaryKeyValue).bind (fun item => item.lookup "messages"))

/-- The row stored for a key value of a table, if any. -/
def rowOf (db : Store) (tableName primaryKeyValue : String) : Option Item :=
  (db tableName).bind (fun t => t.Items primaryKeyValue)

/-- An entry of a stored `messages` list is well formed when it is a map that holds a string
`type` and a string `content`. -/
def wellFormedEntry : AttributeValue → Bool
  | .M message =>
    match message.lookup "content", message.lookup "type" with
    | some (.S _), some (.S _) => true
    | _, _ => false
  | _ => false

/-- A stored `messages` attribute is well formed when it is a list of well-formed entries. -/
def wellFormedMessages : AttributeValue → Bool
  | .L entries => entries.all wellFormedEntry
  | _ => false

/-- Every stored `messages` attribute of the store is a list of well-formed entries. -/
def Store.wellFormed (db : Store) : Prop :=
  ∀ (tn : String) (t : Table) (kv : String) (item : Item) (v : AttributeValue),
    db tn = some t → t.Items kv = some item → item.lookup "messages" = some v →
    wellFormedMessages v = true

/-- The message read back from one well-formed entry: its `type` decides the constructor. -/
def decodeEntry : AttributeValue → Option ChatMessage
  | .M message =>
    match message.lookup "content", message.lookup "type" with
    | some (.S content), some (.S messageType) => chatMessageOf messageType content
    | _, _ => none
  | _ => none

/-- The entries of a stored `messages` attribute; none when the attribute is absent. -/
def entriesOf : Option AttributeValue → List AttributeValue
  | some (.L entries) => entries
  | _ => []

/-- The entry `addMessage` sends for a message. -/
def entryOf (m : ChatMessage) : AttributeValue :=
  .M [("type", .S m.GetType), ("content", .S m.GetContent)]

/-! ## Observing and failing clients -/

/-- A remote call as the client receives it. -/
inductive Call where
  | UpdateItem (ctx : Context) (input : UpdateItemInput)
  | GetItem (ctx : Context) (input : GetItemInput)
  | DeleteTable (ctx : Context) (input : DeleteTableInput)

/-- The context a remote call was made with. -/
def Call.ctx : Call → Context
  | .UpdateItem ctx _ => ctx
  | .GetItem ctx _ => ctx
  | .DeleteTable ctx _ => ctx

/-- A client that forwards every call and appends it to a log kept beside the state. -/
def Client.recording {σ : Type} (c : Client σ) : Client (σ × List Call) :=
  { UpdateItem := fun ctx inp s =>
      ((c.UpdateItem ctx inp s.1).1, ((c.UpdateItem ctx inp s.1).2, s.2 ++ [.UpdateItem ctx inp]))
    GetItem := fun ctx inp s =>
      ((c.GetItem ctx inp s.1).1, ((c.GetItem ctx inp s.1).2, s.2 ++ [.GetItem ctx inp]))
    DeleteTable := fun ctx inp s =>
      ((c.DeleteTable ctx inp s.1).1,
        ((c.DeleteTable ctx inp s.1).2, s.2 ++ [.DeleteTable ctx inp])) }

/-- A client whose calls fail by a schedule kept beside the state: each call takes the head of
the schedule and fails with it, untouched state, when it is an error; it is forwarded when the
head is `none` or the schedule is used up. -/
def Client.failing {σ : Type} (c : Client σ) : Client (σ × List (Option StoreError)) :=
  { UpdateItem := fun ctx inp s =>
      match s.2 with
      | some e :: rest => (some e, (s.1, rest))
      | none :: rest => ((c.UpdateItem ctx inp s.1).1, ((c.UpdateItem ctx inp s.1).2, rest))
      | [] => ((c.UpdateItem ctx inp s.1).1, ((c.UpdateItem ctx inp s.1).2, []))
    GetItem := fun ctx inp s =>
      match s.2 with
      | some e :: rest => (.error e, (s.1, rest))
      | none :: rest => ((c.GetItem ctx inp s.1).1, ((c.GetItem ctx inp s.1).2, rest))
      | [] => ((c.GetItem ctx inp s.1).1, ((c.GetItem ctx inp s.1).2, []))
    DeleteTable := fun ctx inp s =>
      match s.2 with
      | some e :: rest => (some e, (s.1, rest))
      | none :: rest => ((c.DeleteTable ctx inp s.1).1, ((c.DeleteTable ctx inp s.1).2, rest))
      | [] => ((c.DeleteTable ctx inp s.1).1, ((c.DeleteTable ctx inp s.1).2, [])) }

/-- The handle with its calls recorded. -/
def DynamoDBChatMessageHistory.recorded {σ : Type} (h : DynamoDBChatMessageHistory σ) :
    DynamoDBChatMessageHistory (σ × List Call) :=
  h.withClient h.client.recording

/-! ## Sequences of calls made by a caller -/

/-- One call of a single-message entry point. -/
inductive Append where
  | AddMessage (message : ChatMessage)
  | AddUserMessage (text : String)
  | AddAIMessage (text : String)
  deriving DecidableEq, Repr

/-- The message an append call adds. -/
def Append.message : Append → ChatMessage
  | .AddMessage m => m
  | .AddUserMessage text => .HumanChatMessage text
  | .AddAIMessage text => .AIChatMessage text

/-- The append call made on a handle. -/
def Append.run {σ : Type} (h : DynamoDBChatMessageHistory σ) (ctx : Context) :
    Append → σ → Option StoreError × σ
  | .AddMessage m => h.AddMessage ctx m
  | .AddUserMessage text => h.AddUserMessage ctx text
  | .AddAIMessage text => h.AddAIMessage ctx text

/-- The caller makes the append calls one after another; every error is collected. -/
def runAppends {σ : Type} (h : DynamoDBChatMessageHistory σ) (ctx : Context) :
    List Append → σ → List (Option StoreError) × σ
  | [], s => ([], s)
  | a :: rest, s =>
    ((a.run h ctx s).1 :: (runAppends h ctx rest (a.run h ctx s).2).1,
      (runAppends h ctx rest (a.run h ctx s).2).2)

/-- One call of a writing method. -/
inductive Write where
  | AddMessage (message : ChatMessage)
  | AddUserMessage (text : String)
  | AddAIMessage (text : String)
  | SetMessages (messages : List ChatMessage)
  deriving DecidableEq, Repr

/-- The writing call made on a handle. -/
def Write.run {σ : Type} (h : DynamoDBChatMessageHistory σ) (ctx : Context) :
    Write → σ → Option StoreError × σ
  | .AddMessage m => h.AddMessage ctx m
  | .AddUserMessage text => h.AddUserMessage ctx text
  | .AddAIMessage text => h.AddAIMessage ctx text
  | .SetMessages ms => h.SetMessages ctx ms

/-- The state after a caller made the writing calls one after another, whatever they returned. -/
def runWrites {σ : Type} (h : DynamoDBChatMessageHistory σ) (ctx : Context) :
    List Write → σ → σ
  | [], s => s
  | w :: rest, s => runWrites h ctx rest (w.run h ctx s).2

/-- Sequential appends in the words of the specification: `AddMessage` on each message in order,
an earlier failure is kept and nothing more is called. -/
def addInOrder {σ : Type} (h : DynamoDBChatMessageHistory σ) (ctx : Context)
    (ms : List ChatMessage) (s : σ) : Option StoreError × σ :=
  ms.foldl (fun acc m => match acc.1 with
    | some err => (some err, acc.2)
    | none => h.AddMessage ctx m acc.2) (none, s)

/-- The store with one table and no row. -/
def emptyStore (tableName keyName : String) : Store :=
  fun n => if n = tableName then some { KeyName := keyName, Items := fun _ => none } else none

/-- The store with one table that holds one row, the row of `keyValue`. -/
def storeWithItem (tableName keyName keyValue : String) (item : Item) : Store :=
  fun n =>
    if n = tableName then
      some { KeyName := keyName, Items := fun k => if k = keyValue then some item else none }
    else none

/-- The store with one table that holds one row, the row of `keyValue`, with the given
`messages` list. -/
def storeWith (tableName keyName keyValue : String) (messages : List AttributeValue) : Store :=
  storeWithItem tableName keyName keyValue [(keyName, .S keyValue), ("messages", .L messages)]

/-- The handle the tests of the repository build. -/
def exampleHistory : DynamoDBChatMessageHistory Store :=
  memHistory "test-table" "chat_id" "42"

/-- The handle of the tests on a store whose calls fail by a schedule. -/
def failingHistory : DynamoDBChatMessageHistory (Store × List (Option StoreError)) :=
  exampleHistory.withClient memClient.failing

/-! ## Lemmas -/

open DynamoDBChatMessageHistory

variable {σ : Type}

theorem addMessage_eq (h : DynamoDBChatMessageHistory σ) (ctx : Context) (text ty : String) (s : σ) :
    h.addMessage ctx text ty s = h.client.UpdateItem .Background (h.updateItemInput text ty) s := by
  unfold addMessage
  rcases hr : h.client.UpdateItem .Background (h.updateItemInput text ty) s with ⟨e, s1⟩
  cases e <;> rfl

theorem Clear_eq (h : DynamoDBChatMessageHistory σ) (ctx : Context) (s : σ) :
    h.Clear ctx s = h.client.DeleteTable .Background { TableName := h.tableName } s := by
  unfold Clear
  rcases hr : h.client.DeleteTable .Background { TableName := h.tableName } s with ⟨e, s1⟩
  cases e <;> rfl

theorem lookup_filter_ne (name other : String) (hne : other ≠ name) (item : Item) :
    (item.filter (fun p => p.1 != name)).lookup other = item.lookup other := by
  induction item with
  | nil => rfl
  | cons p rest ih =>
    obtain ⟨k, v⟩ := p
    by_cases hk : k = name
    · subst hk
      have : (other == k) = false := by simpa using hne
      simp [List.filter, List.lookup, this, ih]
    · have hk2 : (k != name) = true := by simpa using hk
      simp only [List.filter, hk2, List.lookup]
      rw [ih]

theorem lookup_setAttr_same (name : String) (v : AttributeValue) (item : Item) :
    (setAttr name v item).lookup name = some v := by
  simp [setAttr, List.lookup]

theorem lookup_setAttr_ne (name other : String) (hne : other ≠ name) (v : AttributeValue)
    (item : Item) : (setAttr name v item).lookup other = item.lookup other := by
  have : (other == name) = false := by simpa using hne
  simp [setAttr, List.lookup, this, lookup_filter_ne name other hne]

theorem getMessagesLoop_wellFormed (entries : List AttributeValue)
    (hwf : ∀ e ∈ entries, wellFormedEntry e = true) (acc : List (Option ChatMessage)) :
    getMessagesLoop entries acc = .returned (acc ++ entries.map decodeEntry) := by
  induction entries generalizing acc with
  | nil => simp [getMessagesLoop]
  | cons e rest ih =>
    have he := hwf e (List.mem_cons_self _ _)
    have hrest : ∀ x ∈ rest, wellFormedEntry x = true :=
      fun x hx => hwf x (List.mem_cons_of_mem _ hx)
    cases e with
    | M message =>
      unfold wellFormedEntry at he
      unfold getMessagesLoop
      cases hc : message.lookup "content" with
      | none => simp [hc] at he
      | some c =>
        cases c <;> simp [hc] at he
        case S content =>
          cases ht : message.lookup "type" with
          | none => simp [ht] at he
          | some t =>
            cases t <;> simp [ht] at he
            case S messageType =>
              simp [ih hrest, decodeEntry, hc, ht]
    | _ => simp [wellFormedEntry] at he

theorem memUpdate_accepted (tn kn kv text ty : String) (ctx : Context) (db db1 : Store)
    (hacc : Store.UpdateItem ctx ((memHistory tn kn kv).updateItemInput text ty) db = (none, db1)) :
    ∃ t old, db tn = some t ∧ t.KeyName = kn ∧ kn ≠ "messages" ∧
      ((t.row kv).lookup "messages").getD (.L []) = .L old ∧
      db1 = Function.update db tn (some (t.withItem kv
        (setAttr "messages" (.L (old ++ [.M [("type", .S ty), ("content", .S text)]]))
          (t.row kv)))) := by
  simp only [Store.UpdateItem, updateItemInput, memHistory] at hacc
  cases ht : db tn with
  | none => simp [ht] at hacc
  | some t =>
    simp only [ht] at hacc
    by_cases hk : kn = t.KeyName
    · subst hk
      by_cases hm : "messages" = t.KeyName
      · simp [hm, List.lookup] at hacc
      · simp only [ne_eq, not_true_eq_false, if_false, List.lookup] at hacc
        simp [hm] at hacc
        refine ⟨t, ?_⟩
        cases hold : (List.lookup "messages" (t.row kv)).getD (.L []) with
        | L old =>
          rw [hold] at hacc
          simp at hacc
          exact ⟨old, rfl, rfl, fun h => hm h.symm, rfl, hacc.symm⟩
        | _ => rw [hold] at hacc; simp at hacc
    · simp [hk] at hacc

theorem memUpdate_rejects (tn kn kv text ty : String) (ctx : Context) (db db1 : Store)
    (e : StoreError)
    (hrej : Store.UpdateItem ctx ((memHistory tn kn kv).updateItemInput text ty) db = (some e, db1)) :
    db1 = db := by
  simp only [Store.UpdateItem, updateItemInput, memHistory] at hrej
  cases ht : db tn with
  | none => simp [ht] at hrej; exact hrej.2.symm
  | some t =>
    simp only [ht] at hrej
    by_cases hk : kn = t.KeyName
    · subst hk
      by_cases hm : "messages" = t.KeyName
      · simp [hm, List.lookup] at hrej; exact hrej.2.symm
      · simp only [ne_eq, not_true_eq_false, if_false, List.lookup] at hrej
        simp [hm] at hrej
        cases hold : (List.lookup "messages" (t.row kv)).getD (.L []) with
        | L old => rw [hold] at hrej; simp at hrej
        | _ => rw [hold] at hrej; simp at hrej; exact hrej.2.symm
    · simp [hk] at hrej; exact hrej.2.symm

theorem memGetItem_eq (tn kn kv : String) (ctx : Context) (db : Store) (t : Table)
    (ht : db tn = some t) (hk : t.KeyName = kn) :
    Store.GetItem ctx (memHistory tn kn kv).getItemInput db = (.ok { Item := (t.Items kv).getD [] }, db) := by
  simp [Store.GetItem, getItemInput, memHistory, ht, hk]

theorem memGetItem_state (ctx : Context) (inp : GetItemInput) (db : Store) :
    (Store.GetItem ctx inp db).2 = db := by
  unfold Store.GetItem
  split
  · rfl
  · split
    · split <;> rfl
    · rfl

theorem wellFormedEntry_entry (ty text : String) :
    wellFormedEntry (.M [("type", .S ty), ("content", .S text)]) = true := by
  simp [wellFormedEntry, List.lookup]

theorem decodeEntry_entry (ty text : String) :
    decodeEntry (.M [("type", .S ty), ("content", .S text)]) = chatMessageOf ty text := by
  simp [decodeEntry, List.lookup]

theorem wellFormedMessages_iff (v : AttributeValue) :
    wellFormedMessages v = true ↔ ∃ es, v = .L es ∧ ∀ e ∈ es, wellFormedEntry e = true := by
  cases v <;> simp [wellFormedMessages]

theorem storedMessages_of_table (db : Store) (tn kv : String) (t : Table) (ht : db tn = some t) :
    storedMessages db tn kv = (t.Items kv).bind (fun item => item.lookup "messages") := by
  simp [storedMessages, ht]

theorem lookup_row_messages (t : Table) (kv : String) (hk : t.KeyName ≠ "messages") :
    (t.row kv).lookup "messages" = (t.Items kv).bind (fun item => item.lookup "messages") := by
  unfold Table.row
  cases hi : t.Items kv with
  | none =>
    have : ("messages" == t.KeyName) = false := by simpa using fun h => hk h.symm
    simp [List.lookup, this]
  | some item => simp

/-- What an accepted append does to the store. -/
theorem memAppend_accepted (tn kn kv text ty : String) (ctx : Context) (db db1 : Store)
    (hacc : (memHistory tn kn kv).addMessage ctx text ty db = (none, db1)) :
    ∃ t, db tn = some t ∧ t.KeyName = kn ∧ kn ≠ "messages" ∧
      (storedMessages db tn kv = none ∨ ∃ old, storedMessages db tn kv = some (.L old)) ∧
      db1 = Function.update db tn (some (t.withItem kv
        (setAttr "messages"
          (.L (entriesOf (storedMessages db tn kv) ++ [.M [("type", .S ty), ("content", .S text)]]))
          (t.row kv)))) := by
  rw [addMessage_eq] at hacc
  obtain ⟨t, old, ht, hk, hm, hold, hdb⟩ := memUpdate_accepted tn kn kv text ty .Background db db1 hacc
  refine ⟨t, ht, hk, hm, ?_, ?_⟩
  · rw [storedMessages_of_table db tn kv t ht, ← lookup_row_messages t kv (hk ▸ hm)]
    cases hl : List.lookup "messages" (t.row kv) with
    | none => exact Or.inl rfl
    | some v =>
      rw [hl] at hold
      simp only [Option.getD_some] at hold
      exact Or.inr ⟨old, by rw [hold]⟩
  · have hent : entriesOf (storedMessages db tn kv) = old := by
      rw [storedMessages_of_table db tn kv t ht, ← lookup_row_messages t kv (hk ▸ hm)]
      cases hl : List.lookup "messages" (t.row kv) with
      | none =>
        rw [hl] at hold
        simp only [Option.getD_none, AttributeValue.L.injEq] at hold
        simp [entriesOf, hold]
      | some v =>
        rw [hl] at hold
        simp only [Option.getD_some] at hold
        simp [entriesOf, hold]
    rw [hent]
    exact hdb

theorem memAppend_rejected (tn kn kv text ty : String) (ctx : Context) (db db1 : Store)
    (e : StoreError) (hrej : (memHistory tn kn kv).addMessage ctx text ty db = (some e, db1)) :
    db1 = db := by
  rw [addMessage_eq] at hrej
  exact memUpdate_rejects tn kn kv text ty .Background db db1 e hrej

theorem storedMessages_after_append (tn kv : String) (db : Store) (t : Table) (v : AttributeValue) :
    storedMessages (Function.update db tn (some (t.withItem kv (setAttr "messages" v (t.row kv)))))
      tn kv = some v := by
  simp [storedMessages, Table.withItem, lookup_setAttr_same]

theorem memMessages_read (tn kn kv : String) (ctx : Context) (db : Store) (t : Table)
    (ht : db tn = some t) (hk : t.KeyName = kn)
    (hlist : storedMessages db tn kv = none ∨ ∃ es, storedMessages db tn kv = some (.L es))
    (hwf : ∀ e ∈ entriesOf (storedMessages db tn kv), wellFormedEntry e = true) :
    (memHistory tn kn kv).Messages ctx db =
      (.returned ((entriesOf (storedMessages db tn kv)).map decodeEntry, none), db) := by
  have hget : (memHistory tn kn kv).client.GetItem .Background (memHistory tn kn kv).getItemInput db
      = (.ok { Item := (t.Items kv).getD [] }, db) := memGetItem_eq tn kn kv .Background db t ht hk
  have hst := storedMessages_of_table db tn kv t ht
  have hlk : List.lookup "messages" ((t.Items kv).getD []) = storedMessages db tn kv := by
    rw [hst]; cases t.Items kv <;> simp
  unfold Messages getMessages
  rw [hget]
  simp only [hlk]
  rcases hlist with hnone | ⟨es, hes⟩
  · simp [hnone, entriesOf]
  · rw [hes] at hwf ⊢
    simp only [entriesOf] at hwf ⊢
    simp [getMessagesLoop_wellFormed es hwf []]

/-- The table of a handle exists and has the key attribute the handle uses. -/
theorem tableReady_of_getItem_ok (tn kn kv : String) (ctx : Context) (db : Store)
    (out : GetItemOutput)
    (hok : (Store.GetItem ctx (memHistory tn kn kv).getItemInput db).1 = .ok out) :
    ∃ t, db tn = some t ∧ t.KeyName = kn := by
  simp only [Store.GetItem, getItemInput, memHistory] at hok
  cases ht : db tn with
  | none => simp [ht] at hok
  | some t =>
    by_cases hk : kn = t.KeyName
    · exact ⟨t, rfl, hk.symm⟩
    · simp [ht, hk] at hok

theorem memAppend_post (tn kn kv text ty : String) (ctx : Context) (db : Store)
    (hacc : ((memHistory tn kn kv).addMessage ctx text ty db).1 = none) :
    (∃ t1, ((memHistory tn kn kv).addMessage ctx text ty db).2 tn = some t1 ∧ t1.KeyName = kn) ∧
    storedMessages ((memHistory tn kn kv).addMessage ctx text ty db).2 tn kv =
      some (.L (entriesOf (storedMessages db tn kv) ++
        [.M [("type", .S ty), ("content", .S text)]])) := by
  have hpair : (memHistory tn kn kv).addMessage ctx text ty db =
      (none, ((memHistory tn kn kv).addMessage ctx text ty db).2) := Prod.ext hacc rfl
  obtain ⟨t, _, hk, _, _, hdb⟩ := memAppend_accepted tn kn kv text ty ctx db _ hpair
  rw [hdb]
  exact ⟨⟨_, Function.update_same _ _ _, hk⟩, storedMessages_after_append tn kv db t _⟩

theorem chatMessageOf_of_isHumanOrAI (m : ChatMessage) (hm : m.isHumanOrAI = true) :
    chatMessageOf m.GetType m.GetContent = some m := by
  cases m <;> simp [ChatMessage.isHumanOrAI] at hm <;>
    simp [chatMessageOf, ChatMessage.GetType, ChatMessage.GetContent, ChatMessageTypeAI,
      ChatMessageTypeHuman]

theorem wellFormedEntry_entryOf (m : ChatMessage) : wellFormedEntry (entryOf m) = true :=
  wellFormedEntry_entry _ _

theorem decodeEntry_entryOf (m : ChatMessage) :
    decodeEntry (entryOf m) = chatMessageOf m.GetType m.GetContent :=
  decodeEntry_entry _ _

theorem Append_run_eq (h : DynamoDBChatMessageHistory σ) (ctx : Context) (a : Append) (s : σ) :
    a.run h ctx s = h.addMessage .Background a.message.GetContent a.message.GetType s := by
  cases a <;> rfl

/-- The stored list after a run of accepted single-message calls. -/
theorem runAppends_mem (tn kn kv : String) (ctx : Context) (as : List Append) :
    ∀ (db : Store), (∃ t, db tn = some t ∧ t.KeyName = kn) →
      (∀ e ∈ (runAppends (memHistory tn kn kv) ctx as db).1, e = none) →
      (∃ t1, (runAppends (memHistory tn kn kv) ctx as db).2 tn = some t1 ∧ t1.KeyName = kn) ∧
      entriesOf (storedMessages (runAppends (memHistory tn kn kv) ctx as db).2 tn kv) =
        entriesOf (storedMessages db tn kv) ++ as.map (fun a => entryOf a.message) ∧
      (storedMessages db tn kv = none ∨ (∃ es, storedMessages db tn kv = some (.L es)) →
        storedMessages (runAppends (memHistory tn kn kv) ctx as db).2 tn kv = none ∨
          ∃ es, storedMessages (runAppends (memHistory tn kn kv) ctx as db).2 tn kv
            = some (.L es)) := by
  induction as with
  | nil => intro db ht _; exact ⟨ht, by simp [runAppends], fun h => h⟩
  | cons a rest ih =>
    intro db _ hacc
    simp only [runAppends, List.mem_cons, forall_eq_or_imp] at hacc ⊢
    obtain ⟨ha, hrest⟩ := hacc
    rw [Append_run_eq] at ha hrest ⊢
    obtain ⟨hready, hstored⟩ := memAppend_post tn kn kv _ _ .Background db ha
    obtain ⟨h1, h2, h3⟩ := ih _ hready hrest
    refine ⟨h1, ?_, fun _ => h3 (Or.inr ⟨_, hstored⟩)⟩
    rw [h2, hstored]
    simp [entriesOf, entryOf]

theorem SetMessages_mem (tn kn kv : String) (ctx : Context) (ms : List ChatMessage) :
    ∀ (db : Store), ((memHistory tn kn kv).SetMessages ctx ms db).1 = none →
      entriesOf (storedMessages ((memHistory tn kn kv).SetMessages ctx ms db).2 tn kv) =
        entriesOf (storedMessages db tn kv) ++ ms.map entryOf ∧
      (storedMessages db tn kv = none ∨ (∃ es, storedMessages db tn kv = some (.L es)) →
        storedMessages ((memHistory tn kn kv).SetMessages ctx ms db).2 tn kv = none ∨
          ∃ es, storedMessages ((memHistory tn kn kv).SetMessages ctx ms db).2 tn kv
            = some (.L es)) := by
  induction ms with
  | nil => intro db _; exact ⟨by simp [SetMessages], fun h => h⟩
  | cons m rest ih =>
    intro db hacc
    unfold SetMessages at hacc ⊢
    unfold AddMessage at hacc ⊢
    generalize hr : (memHistory tn kn kv).addMessage .Background m.GetContent m.GetType db
      = r at hacc ⊢
    obtain ⟨e, db1⟩ := r
    cases e with
    | some err => simp at hacc
    | none =>
      simp only at hacc ⊢
      have ha : ((memHistory tn kn kv).addMessage .Background m.GetContent m.GetType db).1
          = none := by rw [hr]
      obtain ⟨_, hstored⟩ := memAppend_post tn kn kv _ _ .Background db ha
      rw [hr] at hstored
      simp only at hstored
      obtain ⟨h2, h3⟩ := ih db1 hacc
      refine ⟨?_, fun _ => h3 (Or.inr ⟨_, hstored⟩)⟩
      rw [h2, hstored]
      simp [entriesOf, entryOf]

/-! ## The claims -/

/-- C1: on the in-memory store, for every text `c` and every prior stored history of the
conversation (a `messages` list of well-formed entries, or none), when the store accepts the
update, `AddUserMessage c` followed by `Messages` returns without error a non-empty sequence
whose last element is the human message with content `c`; likewise `AddAIMessage c` and the AI
message. -/
theorem add_text_then_messages_last (tn kn kv c : String) (ctx ctx1 : Context) (db : Store)
    (hprior : ∀ e ∈ entriesOf (storedMessages db tn kv), wellFormedEntry e = true) :
    (((memHistory tn kn kv).AddUserMessage ctx c db).1 = none →
      ∃ xs, (memHistory tn kn kv).Messages ctx1 ((memHistory tn kn kv).AddUserMessage ctx c db).2
          = (.returned (xs, none), ((memHistory tn kn kv).AddUserMessage ctx c db).2) ∧
        xs ≠ [] ∧ xs.getLast? = some (some (.HumanChatMessage c))) ∧
    (((memHistory tn kn kv).AddAIMessage ctx c db).1 = none →
      ∃ xs, (memHistory tn kn kv).Messages ctx1 ((memHistory tn kn kv).AddAIMessage ctx c db).2
          = (.returned (xs, none), ((memHistory tn kn kv).AddAIMessage ctx c db).2) ∧
        xs ≠ [] ∧ xs.getLast? = some (some (.AIChatMessage c))) := by
  have key : ∀ ty : String,
      ((memHistory tn kn kv).addMessage .Background c ty db).1 = none →
      ∃ xs, (memHistory tn kn kv).Messages ctx1
            ((memHistory tn kn kv).addMessage .Background c ty db).2
          = (.returned (xs, none), ((memHistory tn kn kv).addMessage .Background c ty db).2) ∧
        xs ≠ [] ∧ xs.getLast? = some (chatMessageOf ty c) := by
    intro ty hacc
    obtain ⟨⟨t1, ht1, hk1⟩, hstored⟩ := memAppend_post tn kn kv c ty .Background db hacc
    have hwf : ∀ e ∈ entriesOf (storedMessages
        ((memHistory tn kn kv).addMessage .Background c ty db).2 tn kv),
        wellFormedEntry e = true := by
      rw [hstored]
      intro e he
      simp only [entriesOf, List.mem_append, List.mem_singleton] at he
      rcases he with he | he
      · exact hprior e he
      · rw [he]; exact wellFormedEntry_entry ty c
    have hread := memMessages_read tn kn kv ctx1 _ t1 ht1 hk1 (Or.inr ⟨_, hstored⟩) hwf
    refine ⟨_, hread, ?_, ?_⟩
    · rw [hstored]; simp [entriesOf]
    · rw [hstored]; simp [entriesOf, decodeEntry_entry]
  constructor
  · intro hacc
    have := key "human" hacc
    simpa [chatMessageOf, ChatMessageTypeAI, ChatMessageTypeHuman] using this
  · intro hacc
    have := key "ai" hacc
    simpa [chatMessageOf, ChatMessageTypeAI, ChatMessageTypeHuman] using this

/-- C1 at the table of the tests: both text entry points on a conversation that holds one message. -/
theorem add_text_then_messages_last_witness :
    (∃ xs, exampleHistory.Messages .TODO
          (exampleHistory.AddUserMessage .TODO "test" (storeWith "test-table" "chat_id" "42"
            [entryOf (.AIChatMessage "earlier")])).2
        = (.returned (xs, none),
          (exampleHistory.AddUserMessage .TODO "test" (storeWith "test-table" "chat_id" "42"
            [entryOf (.AIChatMessage "earlier")])).2) ∧
      xs ≠ [] ∧ xs.getLast? = some (some (.HumanChatMessage "test"))) ∧
    (∃ xs, exampleHistory.Messages .TODO
          (exampleHistory.AddAIMessage .TODO "test" (storeWith "test-table" "chat_id" "42"
            [entryOf (.AIChatMessage "earlier")])).2
        = (.returned (xs, none),
          (exampleHistory.AddAIMessage .TODO "test" (storeWith "test-table" "chat_id" "42"
            [entryOf (.AIChatMessage "earlier")])).2) ∧
      xs ≠ [] ∧ xs.getLast? = some (some (.AIChatMessage "test"))) :=
  ⟨(add_text_then_messages_last "test-table" "chat_id" "42" "test" .TODO .TODO
      (storeWith "test-table" "chat_id" "42" [entryOf (.AIChatMessage "earlier")])
      (by decide)).1 (by decide),
   (add_text_then_messages_last "test-table" "chat_id" "42" "test" .TODO .TODO
      (storeWith "test-table" "chat_id" "42" [entryOf (.AIChatMessage "earlier")])
      (by decide)).2 (by decide)⟩

/-- C2: order preservation.  On the in-memory store, for every list of single-message calls
(`AddMessage`, `AddUserMessage`, `AddAIMessage`) that add human or AI messages `ms`, made one
after another on a conversation of an existing table with nothing stored yet, with every update
accepted, `Messages` then returns exactly `ms`, in order and without error. -/
theorem appends_then_messages (tn kn kv : String) (ctx ctx1 : Context) (as : List Append)
    (db : Store) (t : Table) (htable : db tn = some t) (hkey : t.KeyName = kn)
    (hfresh : storedMessages db tn kv = none)
    (hroles : ∀ a ∈ as, a.message.isHumanOrAI = true)
    (hacc : ∀ e ∈ (runAppends (memHistory tn kn kv) ctx as db).1, e = none) :
    (memHistory tn kn kv).Messages ctx1 (runAppends (memHistory tn kn kv) ctx as db).2 =
      (.returned (as.map (fun a => some a.message), none),
        (runAppends (memHistory tn kn kv) ctx as db).2) := by
  obtain ⟨⟨t1, ht1, hk1⟩, hent, hlist⟩ := runAppends_mem tn kn kv ctx as db ⟨t, htable, hkey⟩ hacc
  have hent1 : entriesOf (storedMessages (runAppends (memHistory tn kn kv) ctx as db).2 tn kv) =
      as.map (fun a => entryOf a.message) := by
    rw [hent, hfresh]; simp [entriesOf]
  have hwf : ∀ e ∈ entriesOf (storedMessages (runAppends (memHistory tn kn kv) ctx as db).2 tn kv),
      wellFormedEntry e = true := by
    rw [hent1]
    intro e he
    obtain ⟨a, _, rfl⟩ := List.mem_map.mp he
    exact wellFormedEntry_entryOf _
  rw [memMessages_read tn kn kv ctx1 _ t1 ht1 hk1 (hlist (Or.inl hfresh)) hwf, hent1]
  have hdec : as.map (fun a => decodeEntry (entryOf a.message)) =
      as.map (fun a => some a.message) := by
    apply List.map_congr_left
    intro a ha
    rw [decodeEntry_entryOf]
    exact chatMessageOf_of_isHumanOrAI _ (hroles a ha)
  simp only [List.map_map, Function.comp_def, hdec]

/-- C2 at the scenario of the specification: `AddUserMessage "hi"`, `AddAIMessage "hello!"`. -/
theorem appends_then_messages_witness :
    (memHistory "T" "chat_id" "42").Messages .TODO
        (runAppends (memHistory "T" "chat_id" "42") .TODO
          [.AddUserMessage "hi", .AddAIMessage "hello!"] (emptyStore "T" "chat_id")).2 =
      (.returned ([some (.HumanChatMessage "hi"), some (.AIChatMessage "hello!")], none),
        (runAppends (memHistory "T" "chat_id" "42") .TODO
          [.AddUserMessage "hi", .AddAIMessage "hello!"] (emptyStore "T" "chat_id")).2) :=
  appends_then_messages "T" "chat_id" "42" .TODO .TODO
    [.AddUserMessage "hi", .AddAIMessage "hello!"] (emptyStore "T" "chat_id")
    { KeyName := "chat_id", Items := fun _ => none } rfl rfl rfl (by decide) (by decide)

/-- C3, refuted as stated: on a conversation that already holds the human message "old",
`SetMessages [ai "new"]` is accepted and `Messages` then returns both messages, the old one
first, not the list that was set. -/
theorem setMessages_keeps_prior_history :
    (exampleHistory.SetMessages .TODO [.AIChatMessage "new"]
        (storeWith "test-table" "chat_id" "42" [entryOf (.HumanChatMessage "old")])).1 = none ∧
    (exampleHistory.Messages .TODO
        (exampleHistory.SetMessages .TODO [.AIChatMessage "new"]
          (storeWith "test-table" "chat_id" "42" [entryOf (.HumanChatMessage "old")])).2).1 =
      .returned ([some (.HumanChatMessage "old"), some (.AIChatMessage "new")], none) ∧
    (exampleHistory.Messages .TODO
        (exampleHistory.SetMessages .TODO [.AIChatMessage "new"]
          (storeWith "test-table" "chat_id" "42" [entryOf (.HumanChatMessage "old")])).2).1 ≠
      .returned ([some (.AIChatMessage "new")], none) := by
  decide

/-- C3, amended: `SetMessages` appends to the history.  On the in-memory store, for every prior
stored history (a `messages` list of well-formed entries, or none) and every list `ms` of
human or AI messages, when every store call succeeds, `SetMessages ms` followed by `Messages`
returns the prior history as `Messages` read it before, followed by `ms`; this is exactly `ms`
when nothing was stored before. -/
theorem setMessages_then_messages (tn kn kv : String) (ctx ctx1 : Context)
    (ms : List ChatMessage) (db : Store) (out : GetItemOutput)
    (hprior : ∀ e ∈ entriesOf (storedMessages db tn kv), wellFormedEntry e = true)
    (hlist : storedMessages db tn kv = none ∨ ∃ es, storedMessages db tn kv = some (.L es))
    (hroles : ∀ m ∈ ms, m.isHumanOrAI = true)
    (hset : ((memHistory tn kn kv).SetMessages ctx ms db).1 = none)
    (hread : (Store.GetItem .Background (memHistory tn kn kv).getItemInput
      ((memHistory tn kn kv).SetMessages ctx ms db).2).1 = .ok out) :
    (memHistory tn kn kv).Messages ctx1 ((memHistory tn kn kv).SetMessages ctx ms db).2 =
      (.returned ((entriesOf (storedMessages db tn kv)).map decodeEntry ++ ms.map some, none),
        ((memHistory tn kn kv).SetMessages ctx ms db).2) ∧
    (storedMessages db tn kv = none →
      (memHistory tn kn kv).Messages ctx1 ((memHistory tn kn kv).SetMessages ctx ms db).2 =
        (.returned (ms.map some, none), ((memHistory tn kn kv).SetMessages ctx ms db).2)) := by
  obtain ⟨t1, ht1, hk1⟩ := tableReady_of_getItem_ok tn kn kv .Background _ out hread
  obtain ⟨hent, hl⟩ := SetMessages_mem tn kn kv ctx ms db hset
  have hwf : ∀ e ∈ entriesOf (storedMessages ((memHistory tn kn kv).SetMessages ctx ms db).2 tn kv),
      wellFormedEntry e = true := by
    rw [hent]
    intro e he
    rcases List.mem_append.mp he with he | he
    · exact hprior e he
    · obtain ⟨m, _, rfl⟩ := List.mem_map.mp he
      exact wellFormedEntry_entryOf _
  have hdec : ms.map (fun m => decodeEntry (entryOf m)) = ms.map some := by
    apply List.map_congr_left
    intro m hm
    rw [decodeEntry_entryOf]
    exact chatMessageOf_of_isHumanOrAI m (hroles m hm)
  have hmain := memMessages_read tn kn kv ctx1 _ t1 ht1 hk1 (hl hlist) hwf
  rw [hent, List.map_append, List.map_map] at hmain
  have hmain2 : (memHistory tn kn kv).Messages ctx1 ((memHistory tn kn kv).SetMessages ctx ms db).2 =
      (.returned ((entriesOf (storedMessages db tn kv)).map decodeEntry ++ ms.map some, none),
        ((memHistory tn kn kv).SetMessages ctx ms db).2) := by
    rw [hmain]; simp only [Function.comp_def, hdec]
  refine ⟨hmain2, fun hnone => ?_⟩
  rw [hmain2, hnone]
  simp [entriesOf]

/-- C3 amended, at the conversation that holds "old": the result is the old message, then the
new. -/
theorem setMessages_then_messages_witness :
    exampleHistory.Messages .TODO
        (exampleHistory.SetMessages .TODO [.AIChatMessage "new"]
          (storeWith "test-table" "chat_id" "42" [entryOf (.HumanChatMessage "old")])).2 =
      (.returned ((entriesOf (storedMessages
            (storeWith "test-table" "chat_id" "42" [entryOf (.HumanChatMessage "old")])
            "test-table" "42")).map decodeEntry ++ [ChatMessage.AIChatMessage "new"].map some, none),
        (exampleHistory.SetMessages .TODO [.AIChatMessage "new"]
          (storeWith "test-table" "chat_id" "42" [entryOf (.HumanChatMessage "old")])).2) :=
  (setMessages_then_messages "test-table" "chat_id" "42" .TODO .TODO [.AIChatMessage "new"]
    (storeWith "test-table" "chat_id" "42" [entryOf (.HumanChatMessage "old")])
    { Item := [("messages", .L [entryOf (.HumanChatMessage "old"), entryOf (.AIChatMessage "new")]),
               ("chat_id", .S "42")] }
    (by decide) (Or.inr ⟨_, rfl⟩) (by decide) (by decide) rfl).1

/-- C4, refuted as stated: a stored list whose one entry has type "system" is read back as a
sequence of length one, holding the nil message, not as the empty sequence. -/
theorem unrecognized_role_read_as_nil :
    (exampleHistory.Messages .TODO (storeWith "test-table" "chat_id" "42"
        [.M [("type", .S "system"), ("content", .S "be brief")]])).1 =
      .returned ([none], none) ∧
    (exampleHistory.Messages .TODO (storeWith "test-table" "chat_id" "42"
        [.M [("type", .S "system"), ("content", .S "be brief")]])).1 ≠
      .returned ([], none) := by
  decide

/-- C4, amended: for every client and every stored `messages` list the read returns, each entry
a map with string fields `type` and `content`, `Messages` returns without error one element per
stored entry, in stored order, so the result is as long as the stored list; the element is the
AI or human message with the content of the entry when its type is "ai" or "human", and the
nil message for an entry of any other type. -/
theorem messages_one_element_per_entry (h : DynamoDBChatMessageHistory σ) (ctx : Context)
    (s s1 : σ) (out : GetItemOutput) (entries : List AttributeValue)
    (hget : h.client.GetItem .Background h.getItemInput s = (.ok out, s1))
    (hstored : out.Item.lookup "messages" = some (.L entries))
    (hwf : ∀ e ∈ entries, wellFormedEntry e = true) :
    h.Messages ctx s = (.returned (entries.map decodeEntry, none), s1) ∧
    (entries.map decodeEntry).length = entries.length ∧
    ∀ (message : Item) (ty content : String), .M message ∈ entries →
      message.lookup "type" = some (.S ty) → message.lookup "content" = some (.S content) →
      decodeEntry (.M message) =
        if ty = "ai" then some (.AIChatMessage content)
        else if ty = "human" then some (.HumanChatMessage content)
        else none := by
  refine ⟨?_, by simp, ?_⟩
  · unfold Messages getMessages
    rw [hget]
    simp only [hstored]
    simp [getMessagesLoop_wellFormed entries hwf []]
  · intro message ty content _ hty hcontent
    simp [decodeEntry, hty, hcontent, chatMessageOf, ChatMessageTypeAI, ChatMessageTypeHuman]

/-- C4 amended, at a stored list of a human, a system and an AI entry. -/
theorem messages_one_element_per_entry_witness :
    exampleHistory.Messages .TODO (storeWith "test-table" "chat_id" "42"
        [entryOf (.HumanChatMessage "hi"), entryOf (.SystemChatMessage "be brief"),
          entryOf (.AIChatMessage "hello!")]) =
      (.returned ([entryOf (.HumanChatMessage "hi"), entryOf (.SystemChatMessage "be brief"),
          entryOf (.AIChatMessage "hello!")].map decodeEntry, none),
        storeWith "test-table" "chat_id" "42"
          [entryOf (.HumanChatMessage "hi"), entryOf (.SystemChatMessage "be brief"),
            entryOf (.AIChatMessage "hello!")]) :=
  (messages_one_element_per_entry exampleHistory .TODO
    (storeWith "test-table" "chat_id" "42"
      [entryOf (.HumanChatMessage "hi"), entryOf (.SystemChatMessage "be brief"),
        entryOf (.AIChatMessage "hello!")])
    _ _ _ rfl rfl (by decide)).1

/-- C5: for every client, when the read succeeds and returns no row (an empty attribute map) or
a row without a `messages` attribute, `Messages` returns the empty sequence and a nil error. -/
theorem messages_empty_state (h : DynamoDBChatMessageHistory σ) (ctx : Context)
    (s s1 : σ) (out : GetItemOutput)
    (hget : h.client.GetItem .Background h.getItemInput s = (.ok out, s1))
    (habsent : out.Item = [] ∨ out.Item.lookup "messages" = none) :
    h.Messages ctx s = (.returned ([], none), s1) ∧
    ∀ xs err, h.Messages ctx s = (.returned (xs, err), s1) → xs.length = 0 ∧ err = none := by
  have hnone : out.Item.lookup "messages" = none := by
    rcases habsent with h0 | h0
    · rw [h0]; rfl
    · exact h0
  have hmain : h.Messages ctx s = (.returned ([], none), s1) := by
    unfold Messages getMessages
    rw [hget]
    simp only [hnone]
  refine ⟨hmain, ?_⟩
  intro xs err hx
  rw [hmain] at hx
  simp only [Prod.mk.injEq, Outcome.returned.injEq, and_true] at hx
  obtain ⟨h1, h2⟩ := hx
  subst h1 h2
  exact ⟨rfl, rfl⟩

/-- C5 on the in-memory store: a table with no row, and a row with the key attribute alone. -/
theorem messages_empty_state_witness :
    exampleHistory.Messages .TODO (emptyStore "test-table" "chat_id") =
      (.returned ([], none), emptyStore "test-table" "chat_id") ∧
    exampleHistory.Messages .TODO
        (storeWithItem "test-table" "chat_id" "42" [("chat_id", .S "42")]) =
      (.returned ([], none), storeWithItem "test-table" "chat_id" "42" [("chat_id", .S "42")]) :=
  ⟨(messages_empty_state exampleHistory .TODO (emptyStore "test-table" "chat_id")
      (emptyStore "test-table" "chat_id") { Item := [] } rfl (Or.inl rfl)).1,
   (messages_empty_state exampleHistory .TODO
      (storeWithItem "test-table" "chat_id" "42" [("chat_id", .S "42")])
      (storeWithItem "test-table" "chat_id" "42" [("chat_id", .S "42")])
      { Item := [("chat_id", .S "42")] } rfl (Or.inr rfl)).1⟩

/-! ### Recorded calls -/

/-- The request of an append, as a recorded call. -/
theorem recorded_addMessage (h : DynamoDBChatMessageHistory σ) (ctx : Context)
    (text ty : String) (s : σ) (log : List Call) :
    h.recorded.addMessage ctx text ty (s, log) =
      ((h.addMessage ctx text ty s).1,
        ((h.addMessage ctx text ty s).2,
          log ++ [Call.UpdateItem .Background (h.updateItemInput text ty)])) := by
  rw [addMessage_eq, addMessage_eq]
  rfl

theorem recorded_AddMessage (h : DynamoDBChatMessageHistory σ) (ctx : Context)
    (m : ChatMessage) (s : σ) (log : List Call) :
    h.recorded.AddMessage ctx m (s, log) =
      ((h.AddMessage ctx m s).1,
        ((h.AddMessage ctx m s).2,
          log ++ [Call.UpdateItem .Background (h.updateItemInput m.GetContent m.GetType)])) :=
  recorded_addMessage h .Background _ _ s log

theorem recorded_Clear (h : DynamoDBChatMessageHistory σ) (ctx : Context) (s : σ)
    (log : List Call) :
    h.recorded.Clear ctx (s, log) =
      ((h.Clear ctx s).1,
        ((h.Clear ctx s).2, log ++ [Call.DeleteTable .Background { TableName := h.tableName }])) := by
  rw [Clear_eq, Clear_eq]
  rfl

theorem recorded_Messages_log (h : DynamoDBChatMessageHistory σ) (ctx : Context) (s : σ)
    (log : List Call) :
    (h.recorded.Messages ctx (s, log)).2.2 = log ++ [Call.GetItem .Background h.getItemInput] := by
  unfold Messages getMessages
  have hcall : h.recorded.client.GetItem .Background h.recorded.getItemInput (s, log) =
      ((h.client.GetItem .Background h.getItemInput s).1,
        ((h.client.GetItem .Background h.getItemInput s).2,
          log ++ [Call.GetItem .Background h.getItemInput])) := rfl
  rw [hcall]
  cases (h.client.GetItem .Background h.getItemInput s).1 with
  | error err => rfl
  | ok result =>
    simp only
    split
    · rfl
    · split <;> rfl
    · rfl

/-- An earlier failure stays the result of the sequential appends. -/
theorem addInOrder_step_failed (h : DynamoDBChatMessageHistory σ) (ctx : Context)
    (ms : List ChatMessage) (e : StoreError) (s : σ) :
    ms.foldl (fun acc m => match acc.1 with
      | some err => (some err, acc.2)
      | none => h.AddMessage ctx m acc.2) (some e, s) = (some e, s) := by
  induction ms with
  | nil => rfl
  | cons m rest ih => simpa [List.foldl] using ih

theorem addInOrder_cons (h : DynamoDBChatMessageHistory σ) (ctx : Context) (m : ChatMessage)
    (rest : List ChatMessage) (s : σ) :
    addInOrder h ctx (m :: rest) s =
      match h.AddMessage ctx m s with
      | (some err, s1) => (some err, s1)
      | (none, s1) => addInOrder h ctx rest s1 := by
  unfold addInOrder
  simp only [List.foldl]
  generalize h.AddMessage ctx m s = r
  obtain ⟨e, s1⟩ := r
  cases e with
  | none => rfl
  | some err => exact addInOrder_step_failed h ctx rest err s1

theorem SetMessages_cons (h : DynamoDBChatMessageHistory σ) (ctx : Context) (m : ChatMessage)
    (rest : List ChatMessage) (s : σ) :
    h.SetMessages ctx (m :: rest) s =
      match h.AddMessage .Background m s with
      | (some err, s1) => (some err, s1)
      | (none, s1) => h.SetMessages ctx rest s1 := rfl

theorem SetMessages_eq_addInOrder (h : DynamoDBChatMessageHistory σ) (ctx : Context)
    (ms : List ChatMessage) : ∀ s : σ, h.SetMessages ctx ms s = addInOrder h ctx ms s := by
  induction ms with
  | nil => intro s; rfl
  | cons m rest ih =>
    intro s
    rw [addInOrder_cons, SetMessages_cons]
    have hctx : h.AddMessage .Background m s = h.AddMessage ctx m s := rfl
    rw [hctx]
    generalize h.AddMessage ctx m s = r
    obtain ⟨e, s1⟩ := r
    cases e with
    | none => exact ih s1
    | some err => rfl

/-- The calls of a run of `SetMessages` whose first messages `pre` are all accepted. -/
theorem SetMessages_accepted_run (h : DynamoDBChatMessageHistory σ) (ctx : Context)
    (pre rest : List ChatMessage) :
    ∀ (s : σ) (log : List Call), (addInOrder h ctx pre s).1 = none →
      h.SetMessages ctx (pre ++ rest) s = h.SetMessages ctx rest (addInOrder h ctx pre s).2 ∧
      h.recorded.SetMessages ctx (pre ++ rest) (s, log) =
        h.recorded.SetMessages ctx rest ((addInOrder h ctx pre s).2,
          log ++ pre.map (fun x =>
            Call.UpdateItem .Background (h.updateItemInput x.GetContent x.GetType))) := by
  induction pre with
  | nil => intro s log _; simp [addInOrder]
  | cons m pre ih =>
    intro s log hacc
    rw [addInOrder_cons] at hacc ⊢
    simp only [List.cons_append]
    have hrec := recorded_AddMessage h .Background m s log
    have hctx : h.AddMessage .Background m s = h.AddMessage ctx m s := rfl
    rw [hctx] at hrec
    rw [SetMessages_cons, SetMessages_cons, hrec, hctx]
    generalize h.AddMessage ctx m s = r at hacc ⊢
    obtain ⟨e, s1⟩ := r
    cases e with
    | some err => simp [addInOrder_step_failed] at hacc
    | none =>
      simp only at hacc ⊢
      obtain ⟨h1, h2⟩ := ih s1
        (log ++ [Call.UpdateItem .Background (h.updateItemInput m.GetContent m.GetType)]) hacc
      refine ⟨h1, ?_⟩
      rw [h2]
      simp

/-- C6, refuted as stated: on a table that holds the conversation "42", `Clear` is accepted, and
`Messages` afterwards, through the handle of "42" and through the handle of "7", returns the
error that the table is not found beside the empty sequence, not an empty result with a nil
error. -/
theorem messages_after_clear_is_error :
    (exampleHistory.Clear .TODO
        (storeWith "test-table" "chat_id" "42" [entryOf (.HumanChatMessage "hi")])).1 = none ∧
    (exampleHistory.Messages .TODO
        (exampleHistory.Clear .TODO
          (storeWith "test-table" "chat_id" "42" [entryOf (.HumanChatMessage "hi")])).2).1 =
      .returned ([], some .ResourceNotFoundException) ∧
    ((memHistory "test-table" "chat_id" "7").Messages .TODO
        (exampleHistory.Clear .TODO
          (storeWith "test-table" "chat_id" "42" [entryOf (.HumanChatMessage "hi")])).2).1 =
      .returned ([], some .ResourceNotFoundException) ∧
    ((memHistory "test-table" "chat_id" "7").Messages .TODO
        (exampleHistory.Clear .TODO
          (storeWith "test-table" "chat_id" "42" [entryOf (.HumanChatMessage "hi")])).2).1 ≠
      .returned ([], none) := by
  decide

/-- C6, amended: `Clear` is table-wide.  On the in-memory store `Clear` issues exactly one call,
the deletion of the table named by the handle, whatever the key name and key value of the handle
are; after a successful `Clear` the table is gone, and `Messages` on a handle for that table
with any key name and any key value returns no message: the empty sequence together with the
error of the store that the table is not found, never a nil error. -/
theorem clear_is_table_wide (tn kn kv : String) (ctx ctx1 : Context) (db : Store) :
    ((memHistory tn kn kv).recorded.Clear ctx (db, [])).2.2 =
      [Call.DeleteTable .Background { TableName := tn }] ∧
    (((memHistory tn kn kv).Clear ctx db).1 = none →
      ((memHistory tn kn kv).Clear ctx db).2 tn = none ∧
      ∀ kn1 kv1 : String,
        (memHistory tn kn1 kv1).Messages ctx1 ((memHistory tn kn kv).Clear ctx db).2 =
          (.returned ([], some .ResourceNotFoundException),
            ((memHistory tn kn kv).Clear ctx db).2) ∧
        ∀ xs : List (Option ChatMessage),
          (memHistory tn kn1 kv1).Messages ctx1 ((memHistory tn kn kv).Clear ctx db).2 ≠
            (.returned (xs, none), ((memHistory tn kn kv).Clear ctx db).2)) := by
  refine ⟨by rw [recorded_Clear]; rfl, fun hacc => ?_⟩
  rw [Clear_eq] at hacc ⊢
  have hdel : (memHistory tn kn kv).client.DeleteTable .Background
      { TableName := (memHistory tn kn kv).tableName } db =
      Store.DeleteTable .Background { TableName := tn } db := rfl
  rw [hdel] at hacc ⊢
  have hgone : (Store.DeleteTable .Background { TableName := tn } db).2 tn = none := by
    unfold Store.DeleteTable at hacc ⊢
    cases ht : db tn with
    | none => simp [ht] at hacc
    | some t => simp
  refine ⟨hgone, fun kn1 kv1 => ?_⟩
  unfold Messages getMessages
  have hget : (memHistory tn kn1 kv1).client.GetItem .Background
      (memHistory tn kn1 kv1).getItemInput (Store.DeleteTable .Background { TableName := tn } db).2 =
      (.error .ResourceNotFoundException,
        (Store.DeleteTable .Background { TableName := tn } db).2) := by
    show Store.GetItem .Background { TableName := tn, Key := [(kn1, .S kv1)] } _ = _
    unfold Store.GetItem
    simp only [hgone]
  rw [hget]
  refine ⟨rfl, fun xs hx => ?_⟩
  simp at hx

/-- C6 amended, at a table that holds the conversation "42": after `Clear` through the handle of
"42", the handle of conversation "7" reads no message and gets the error. -/
theorem clear_is_table_wide_witness :
    (memHistory "test-table" "chat_id" "7").Messages .TODO
        (exampleHistory.Clear .TODO
          (storeWith "test-table" "chat_id" "42" [entryOf (.HumanChatMessage "hi")])).2 =
      (.returned ([], some .ResourceNotFoundException),
        (exampleHistory.Clear .TODO
          (storeWith "test-table" "chat_id" "42" [entryOf (.HumanChatMessage "hi")])).2) :=
  (((clear_is_table_wide "test-table" "chat_id" "42" .TODO .TODO
    (storeWith "test-table" "chat_id" "42" [entryOf (.HumanChatMessage "hi")])).2
      (by decide)).2 "chat_id" "7").1

/-- C7: for every client, `SetMessages ms` is the sequential run of `AddMessage` over `ms` that
stops at the first failure.  If the messages `pre` before `m` are all accepted and the append
of `m` fails with `e`, `SetMessages` returns `e` in the state that failing call left behind
the appends of `pre` (no rollback), and the update calls issued are those of `pre` and `m`, in
order, none for a later message; if no append fails it returns nil after exactly one update
call per message. -/
theorem setMessages_short_circuit (h : DynamoDBChatMessageHistory σ) (ctx : Context)
    (ms : List ChatMessage) (s : σ) :
    h.SetMessages ctx ms s = addInOrder h ctx ms s ∧
    (∀ (pre post : List ChatMessage) (m : ChatMessage) (e : StoreError),
      ms = pre ++ m :: post → (addInOrder h ctx pre s).1 = none →
      (h.AddMessage ctx m (addInOrder h ctx pre s).2).1 = some e →
        h.SetMessages ctx ms s = (some e, (h.AddMessage ctx m (addInOrder h ctx pre s).2).2) ∧
        (h.recorded.SetMessages ctx ms (s, [])).2.2 =
          (pre ++ [m]).map (fun x =>
            Call.UpdateItem .Background (h.updateItemInput x.GetContent x.GetType))) ∧
    ((addInOrder h ctx ms s).1 = none →
      (h.SetMessages ctx ms s).1 = none ∧
      (h.recorded.SetMessages ctx ms (s, [])).2.2 =
        ms.map (fun x => Call.UpdateItem .Background (h.updateItemInput x.GetContent x.GetType)) ∧
      (h.recorded.SetMessages ctx ms (s, [])).2.2.length = ms.length) := by
  refine ⟨SetMessages_eq_addInOrder h ctx ms s, ?_, ?_⟩
  · intro pre post m e hms hpre hfail
    subst hms
    obtain ⟨h1, h2⟩ := SetMessages_accepted_run h ctx pre (m :: post) s [] hpre
    have hctx : ∀ x, h.AddMessage .Background m x = h.AddMessage ctx m x := fun _ => rfl
    constructor
    · rw [h1, SetMessages_cons, hctx]
      generalize h.AddMessage ctx m (addInOrder h ctx pre s).2 = r at hfail ⊢
      obtain ⟨e1, s2⟩ := r
      simp only at hfail
      subst hfail
      rfl
    · rw [h2, SetMessages_cons, recorded_AddMessage, hctx]
      generalize h.AddMessage ctx m (addInOrder h ctx pre s).2 = r at hfail ⊢
      obtain ⟨e1, s2⟩ := r
      simp only at hfail
      subst hfail
      simp
  · intro hall
    have hrun := SetMessages_accepted_run h ctx ms [] s [] hall
    simp only [List.append_nil, List.nil_append] at hrun
    obtain ⟨_, h2⟩ := hrun
    have hlog : (h.recorded.SetMessages ctx ms (s, [])).2.2 =
        ms.map (fun x =>
          Call.UpdateItem .Background (h.updateItemInput x.GetContent x.GetType)) := by
      rw [h2]; rfl
    refine ⟨by rw [SetMessages_eq_addInOrder]; exact hall, hlog, ?_⟩
    rw [hlog, List.length_map]

/-- C7 on a store whose second call fails: of three messages the first is appended, the second
returns the failure, and two update calls were issued. -/
theorem setMessages_short_circuit_witness :
    failingHistory.SetMessages .TODO
        [.HumanChatMessage "a", .AIChatMessage "b", .HumanChatMessage "c"]
        (emptyStore "test-table" "chat_id", [none, some (.RequestFailure "throttled")]) =
      (some (.RequestFailure "throttled"),
        (failingHistory.AddMessage .TODO (.AIChatMessage "b")
          (addInOrder failingHistory .TODO [.HumanChatMessage "a"]
            (emptyStore "test-table" "chat_id",
              [none, some (.RequestFailure "throttled")])).2).2) ∧
    (failingHistory.recorded.SetMessages .TODO
        [.HumanChatMessage "a", .AIChatMessage "b", .HumanChatMessage "c"]
        ((emptyStore "test-table" "chat_id", [none, some (.RequestFailure "throttled")]),
          [])).2.2 =
      ([ChatMessage.HumanChatMessage "a"] ++ [ChatMessage.AIChatMessage "b"]).map (fun x =>
        Call.UpdateItem .Background (failingHistory.updateItemInput x.GetContent x.GetType)) :=
  (setMessages_short_circuit failingHistory .TODO
    [.HumanChatMessage "a", .AIChatMessage "b", .HumanChatMessage "c"]
    (emptyStore "test-table" "chat_id", [none, some (.RequestFailure "throttled")])).2.1
    [.HumanChatMessage "a"] [.HumanChatMessage "c"] (.AIChatMessage "b")
    (.RequestFailure "throttled") rfl (by decide) (by decide)

/-- After the failed run of `SetMessages` above, the first message is what `Messages` reads. -/
theorem setMessages_failure_keeps_earlier :
    (failingHistory.Messages .TODO
      (failingHistory.SetMessages .TODO
        [.HumanChatMessage "a", .AIChatMessage "b", .HumanChatMessage "c"]
        (emptyStore "test-table" "chat_id", [none, some (.RequestFailure "throttled")])).2).1 =
      .returned ([some (.HumanChatMessage "a")], none) := by
  decide

/-- C8, refuted as stated: called with a cancellable context, `AddUserMessage`, `Messages` and
`Clear` each hand `context.Background()` to the store, not the context of the caller. -/
theorem caller_context_not_forwarded :
    ((exampleHistory.recorded.AddUserMessage (.WithCancel .Background) "hi"
        (emptyStore "test-table" "chat_id", [])).2.2).map Call.ctx = [Context.Background] ∧
    ((exampleHistory.recorded.Messages (.WithCancel .Background)
        (emptyStore "test-table" "chat_id", [])).2.2).map Call.ctx = [Context.Background] ∧
    ((exampleHistory.recorded.Clear (.WithCancel .Background)
        (emptyStore "test-table" "chat_id", [])).2.2).map Call.ctx = [Context.Background] ∧
    Context.Background ≠ Context.WithCancel .Background := by
  decide

theorem recorded_SetMessages_log (h : DynamoDBChatMessageHistory σ) (ctx : Context)
    (ms : List ChatMessage) :
    ∀ (s : σ) (log : List Call), ∃ calls : List Call,
      (h.recorded.SetMessages ctx ms (s, log)).2.2 = log ++ calls ∧
      calls.all (fun c => decide (c.ctx = Context.Background)) = true := by
  induction ms with
  | nil => intro s log; exact ⟨[], by simp [SetMessages], rfl⟩
  | cons m rest ih =>
    intro s log
    rw [SetMessages_cons, recorded_AddMessage]
    generalize h.AddMessage .Background m s = r
    obtain ⟨e, s1⟩ := r
    cases e with
    | some err => exact ⟨[_], rfl, by simp [Call.ctx]⟩
    | none =>
      obtain ⟨calls, hc, hall⟩ := ih s1
        (log ++ [Call.UpdateItem .Background (h.updateItemInput m.GetContent m.GetType)])
      refine ⟨Call.UpdateItem .Background (h.updateItemInput m.GetContent m.GetType) :: calls,
        ?_, ?_⟩
      · simp only
        rw [hc]; simp
      · simpa [Call.ctx] using hall

/-- C8, amended: for every client, every public operation (`AddMessage`, `AddUserMessage`,
`AddAIMessage`, `SetMessages`, `Messages`, `Clear`) and every context the caller supplies, the
context handed to each remote store call made by the operation is `context.Background()`; the
context of the caller is not used. -/
theorem remote_calls_use_background (h : DynamoDBChatMessageHistory σ) (ctx : Context)
    (m : ChatMessage) (text : String) (ms : List ChatMessage) (s : σ) :
    (h.recorded.AddMessage ctx m (s, [])).2.2.all
        (fun c => decide (c.ctx = Context.Background)) = true ∧
    (h.recorded.AddUserMessage ctx text (s, [])).2.2.all
        (fun c => decide (c.ctx = Context.Background)) = true ∧
    (h.recorded.AddAIMessage ctx text (s, [])).2.2.all
        (fun c => decide (c.ctx = Context.Background)) = true ∧
    (h.recorded.SetMessages ctx ms (s, [])).2.2.all
        (fun c => decide (c.ctx = Context.Background)) = true ∧
    (h.recorded.Messages ctx (s, [])).2.2.all
        (fun c => decide (c.ctx = Context.Background)) = true ∧
    (h.recorded.Clear ctx (s, [])).2.2.all
        (fun c => decide (c.ctx = Context.Background)) = true := by
  refine ⟨?_, ?_, ?_, ?_, ?_, ?_⟩
  · rw [recorded_AddMessage]; simp [Call.ctx]
  · unfold AddUserMessage; rw [recorded_addMessage]; simp [Call.ctx]
  · unfold AddAIMessage; rw [recorded_addMessage]; simp [Call.ctx]
  · obtain ⟨calls, hc, hall⟩ := recorded_SetMessages_log h ctx ms s []
    rw [hc]; simpa using hall
  · rw [recorded_Messages_log]; simp [Call.ctx]
  · rw [recorded_Clear]; simp [Call.ctx]

theorem rowOf_of_table (db : Store) (tn kv : String) (t : Table) (ht : db tn = some t) :
    rowOf db tn kv = t.Items kv := by
  simp [rowOf, ht]

/-- C9: each of `AddMessage`, `AddUserMessage`, `AddAIMessage` issues exactly one update
request, to the table and key of the handle, with the list-append expression and the one new entry
(type "human" and "ai" for the two text entry points).  On the in-memory store, when the update
is accepted, the `messages` list of the row is the earlier list (empty when the row or the list was
absent) with that entry added at its end, the row exists afterwards with its other attributes
as before, and every other row and table is unchanged. -/
theorem append_touches_one_list (tn kn kv c : String) (ctx : Context) (a : Append) (db : Store) :
    (a.run (memHistory tn kn kv).recorded ctx (db, [])).2.2 =
      [Call.UpdateItem .Background
        { TableName := tn
          Key := [(kn, .S kv)]
          UpdateExpression :=
            "SET #messages = list_append(if_not_exists(#messages, :empty_list), :newMessage)"
          ExpressionAttributeNames := [("#messages", "messages")]
          ExpressionAttributeValues :=
            [(":newMessage",
                .L [.M [("type", .S a.message.GetType), ("content", .S a.message.GetContent)]]),
              (":empty_list", .L [])] }] ∧
    (Append.AddUserMessage c).message.GetType = "human" ∧
    (Append.AddAIMessage c).message.GetType = "ai" ∧
    ((a.run (memHistory tn kn kv) ctx db).1 = none →
      storedMessages (a.run (memHistory tn kn kv) ctx db).2 tn kv =
        some (.L (entriesOf (storedMessages db tn kv) ++ [entryOf a.message])) ∧
      (storedMessages db tn kv = none →
        storedMessages (a.run (memHistory tn kn kv) ctx db).2 tn kv =
          some (.L [entryOf a.message])) ∧
      (∃ row, rowOf (a.run (memHistory tn kn kv) ctx db).2 tn kv = some row ∧
        ∀ attr : String, attr ≠ "messages" →
          row.lookup attr = ((rowOf db tn kv).getD [(kn, .S kv)]).lookup attr) ∧
      (∀ kv1 : String, kv1 ≠ kv →
        rowOf (a.run (memHistory tn kn kv) ctx db).2 tn kv1 = rowOf db tn kv1) ∧
      (∀ tn1 : String, tn1 ≠ tn → (a.run (memHistory tn kn kv) ctx db).2 tn1 = db tn1)) := by
  refine ⟨?_, rfl, rfl, ?_⟩
  · rw [Append_run_eq, recorded_addMessage]; rfl
  · intro hacc
    rw [Append_run_eq] at hacc ⊢
    have hpair : (memHistory tn kn kv).addMessage .Background a.message.GetContent
        a.message.GetType db = (none, ((memHistory tn kn kv).addMessage .Background
          a.message.GetContent a.message.GetType db).2) := Prod.ext hacc rfl
    obtain ⟨t, ht, hk, _, _, hdb⟩ := memAppend_accepted tn kn kv _ _ .Background db _ hpair
    have hstored := (memAppend_post tn kn kv _ _ .Background db hacc).2
    refine ⟨hstored, ?_, ?_, ?_, ?_⟩
    · intro hnone
      rw [hstored, hnone]; rfl
    · rw [hdb]
      have hrow : rowOf (Function.update db tn (some (t.withItem kv (setAttr "messages"
          (.L (entriesOf (storedMessages db tn kv) ++
            [.M [("type", .S a.message.GetType), ("content", .S a.message.GetContent)]]))
          (t.row kv))))) tn kv = some (setAttr "messages"
          (.L (entriesOf (storedMessages db tn kv) ++
            [.M [("type", .S a.message.GetType), ("content", .S a.message.GetContent)]]))
          (t.row kv)) := by
        simp [rowOf, Table.withItem]
      refine ⟨_, hrow, ?_⟩
      intro attr hattr
      rw [lookup_setAttr_ne "messages" attr hattr, rowOf_of_table db tn kv t ht]
      simp [Table.row, hk]
    · intro kv1 hkv1
      rw [hdb, rowOf_of_table db tn kv1 t ht]
      simp [rowOf, Table.withItem, Function.update_noteq hkv1]
    · intro tn1 htn1
      rw [hdb]
      exact Function.update_noteq htn1 _ _

/-- C9 at the table of the tests: `AddUserMessage "test"` on a table with no row. -/
theorem append_touches_one_list_witness :
    storedMessages (exampleHistory.AddUserMessage .TODO "test"
        (emptyStore "test-table" "chat_id")).2 "test-table" "42" =
      some (.L (entriesOf (storedMessages (emptyStore "test-table" "chat_id") "test-table" "42")
        ++ [entryOf (.HumanChatMessage "test")])) :=
  ((append_touches_one_list "test-table" "chat_id" "42" "" .TODO (.AddUserMessage "test")
    (emptyStore "test-table" "chat_id")).2.2.2 (by decide)).1

/-! ### The invariant of the stored lists -/

theorem wellFormedEntry_iff (e : AttributeValue) :
    wellFormedEntry e = true ↔ ∃ (message : Item) (ty content : String), e = .M message ∧
      message.lookup "type" = some (.S ty) ∧ message.lookup "content" = some (.S content) := by
  cases e with
  | M message =>
    cases hc : message.lookup "content" with
    | none => simp [wellFormedEntry, hc]
    | some c =>
      cases ht : message.lookup "type" with
      | none => simp [wellFormedEntry, hc, ht]
      | some t => cases c <;> cases t <;> simp [wellFormedEntry, hc, ht]
  | _ => simp [wellFormedEntry]

theorem wellFormed_entries (db : Store) (hinv : db.wellFormed) (tn kv : String) :
    ∀ e ∈ entriesOf (storedMessages db tn kv), wellFormedEntry e = true := by
  intro e he
  cases hs : storedMessages db tn kv with
  | none => rw [hs] at he; simp [entriesOf] at he
  | some v =>
    have hv : wellFormedMessages v = true := by
      unfold storedMessages at hs
      cases ht : db tn with
      | none => simp [ht] at hs
      | some t =>
        cases hi : t.Items kv with
        | none => simp [ht, hi] at hs
        | some item =>
          simp only [ht, hi, Option.bind_eq_bind, Option.some_bind] at hs
          exact hinv tn t kv item v ht hi hs
    obtain ⟨es, rfl, hes⟩ := (wellFormedMessages_iff v).mp hv
    rw [hs] at he
    exact hes e he

theorem wellFormed_addMessage (tn kn kv text ty : String) (ctx : Context) (db : Store)
    (hinv : db.wellFormed) : ((memHistory tn kn kv).addMessage ctx text ty db).2.wellFormed := by
  generalize hr : (memHistory tn kn kv).addMessage ctx text ty db = r
  obtain ⟨e, db1⟩ := r
  cases e with
  | some err =>
    have := memAppend_rejected tn kn kv text ty ctx db db1 err hr
    subst this
    exact hinv
  | none =>
    obtain ⟨t, ht, _, _, _, hdb⟩ := memAppend_accepted tn kn kv text ty ctx db db1 hr
    simp only
    intro tn1 t1 kv1 item v ht1 hi1 hl1
    rw [hdb] at ht1
    by_cases htn : tn1 = tn
    · subst htn
      rw [Function.update_same] at ht1
      cases ht1
      by_cases hkv : kv1 = kv
      · subst hkv
        simp only [Table.withItem, Function.update_same, Option.some.injEq] at hi1
        subst hi1
        rw [lookup_setAttr_same] at hl1
        cases hl1
        rw [wellFormedMessages_iff]
        refine ⟨_, rfl, ?_⟩
        intro e he
        rcases List.mem_append.mp he with he | he
        · exact wellFormed_entries db hinv tn1 kv1 e he
        · rw [List.mem_singleton.mp he]; exact wellFormedEntry_entry ty text
      · simp only [Table.withItem, Function.update_noteq hkv] at hi1
        exact hinv tn1 t kv1 item v ht hi1 hl1
    · rw [Function.update_noteq htn] at ht1
      exact hinv tn1 t1 kv1 item v ht1 hi1 hl1

theorem wellFormed_SetMessages (tn kn kv : String) (ctx : Context) (ms : List ChatMessage) :
    ∀ db : Store, db.wellFormed → ((memHistory tn kn kv).SetMessages ctx ms db).2.wellFormed := by
  induction ms with
  | nil => intro db hinv; exact hinv
  | cons m rest ih =>
    intro db hinv
    rw [SetMessages_cons]
    have hstep := wellFormed_addMessage tn kn kv m.GetContent m.GetType .Background db hinv
    unfold AddMessage
    generalize (memHistory tn kn kv).addMessage .Background m.GetContent m.GetType db = r
      at hstep ⊢
    obtain ⟨e, db1⟩ := r
    cases e with
    | some err => exact hstep
    | none => exact ih db1 hstep

theorem wellFormed_runWrites (tn kn kv : String) (ctx : Context) (ws : List Write) :
    ∀ db : Store, db.wellFormed → (runWrites (memHistory tn kn kv) ctx ws db).wellFormed := by
  induction ws with
  | nil => intro db hinv; exact hinv
  | cons w rest ih =>
    intro db hinv
    unfold runWrites
    apply ih
    cases w with
    | AddMessage m => exact wellFormed_addMessage tn kn kv _ _ .Background db hinv
    | AddUserMessage text => exact wellFormed_addMessage tn kn kv _ _ .Background db hinv
    | AddAIMessage text => exact wellFormed_addMessage tn kn kv _ _ .Background db hinv
    | SetMessages ms => exact wellFormed_SetMessages tn kn kv ctx ms db hinv

theorem wellFormed_read (tn kn kv : String) (ctx : Context) (db : Store) (hinv : db.wellFormed) :
    ∃ r, (memHistory tn kn kv).Messages ctx db = (.returned r, db) := by
  unfold Messages getMessages
  have hcall : (memHistory tn kn kv).client.GetItem .Background
      (memHistory tn kn kv).getItemInput db =
      Store.GetItem .Background { TableName := tn, Key := [(kn, .S kv)] } db := rfl
  rw [hcall]
  unfold Store.GetItem
  cases ht : db tn with
  | none => exact ⟨_, rfl⟩
  | some t =>
    simp only
    by_cases hk : kn = t.KeyName
    · simp only [ne_eq, hk, not_true_eq_false, if_false]
      cases hi : t.Items kv with
      | none => exact ⟨_, rfl⟩
      | some item =>
        simp only [Option.getD_some]
        cases hl : List.lookup "messages" item with
        | none => exact ⟨_, rfl⟩
        | some v =>
          obtain ⟨es, rfl, hes⟩ := (wellFormedMessages_iff v).mp (hinv tn t kv item v ht hi hl)
          simp only [getMessagesLoop_wellFormed es hes []]
          exact ⟨_, rfl⟩
    · simp only [ne_eq, hk, not_false_eq_true, if_true]
      exact ⟨_, rfl⟩

/-- C10: on the in-memory store, in every state reached from tables without rows through any
sequence of `AddMessage`, `AddUserMessage`, `AddAIMessage` and `SetMessages` calls of a handle,
with messages of any type and content and whether or not the store accepts them, the
`messages` attribute of the conversation row is a list whose every entry is a map holding a
string `type` and a string `content`; hence `Messages`, through this or any other handle,
returns rather than panics. -/
theorem reachable_store_well_formed (tn kn kv : String) (ctx ctx1 : Context) (ws : List Write)
    (db : Store) (hempty : ∀ (n : String) (t : Table) (k : String), db n = some t → t.Items k = none) :
    (∀ v, storedMessages (runWrites (memHistory tn kn kv) ctx ws db) tn kv = some v →
      ∃ entries, v = .L entries ∧ ∀ e ∈ entries, ∃ (message : Item) (ty content : String),
        e = .M message ∧ message.lookup "type" = some (.S ty) ∧
        message.lookup "content" = some (.S content)) ∧
    (∃ r, (memHistory tn kn kv).Messages ctx1 (runWrites (memHistory tn kn kv) ctx ws db) =
      (.returned r, runWrites (memHistory tn kn kv) ctx ws db)) ∧
    (∀ tn1 kn1 kv1 : String, ∃ r,
      (memHistory tn1 kn1 kv1).Messages ctx1 (runWrites (memHistory tn kn kv) ctx ws db) =
        (.returned r, runWrites (memHistory tn kn kv) ctx ws db)) := by
  have h0 : db.wellFormed := by
    intro n t k item v ht hi _
    rw [hempty n t k ht] at hi
    cases hi
  have hinv := wellFormed_runWrites tn kn kv ctx ws db h0
  refine ⟨?_, wellFormed_read tn kn kv ctx1 _ hinv, fun tn1 kn1 kv1 =>
    wellFormed_read tn1 kn1 kv1 ctx1 _ hinv⟩
  intro v hv
  have hent := wellFormed_entries _ hinv tn kv
  have hlist : ∃ es, v = .L es := by
    unfold storedMessages at hv
    cases ht : runWrites (memHistory tn kn kv) ctx ws db tn with
    | none => simp [ht] at hv
    | some t =>
      cases hi : t.Items kv with
      | none => simp [ht, hi] at hv
      | some item =>
        simp only [ht, hi, Option.bind_eq_bind, Option.some_bind] at hv
        obtain ⟨es, hes, _⟩ := (wellFormedMessages_iff v).mp (hinv tn t kv item v ht hi hv)
        exact ⟨es, hes⟩
  obtain ⟨es, rfl⟩ := hlist
  rw [hv] at hent
  exact ⟨es, rfl, fun e he => (wellFormedEntry_iff e).mp (hent e he)⟩

/-- C10 at the table of the tests: a system message, a `SetMessages` of two messages with empty
content and an empty user message, then the read. -/
theorem reachable_store_well_formed_witness :
    ∃ r, exampleHistory.Messages .TODO
        (runWrites exampleHistory .TODO
          [.AddMessage (.SystemChatMessage "be brief"),
            .SetMessages [.HumanChatMessage "", .FunctionChatMessage "f" ""],
            .AddUserMessage ""] (emptyStore "test-table" "chat_id")) =
      (.returned r, runWrites exampleHistory .TODO
          [.AddMessage (.SystemChatMessage "be brief"),
            .SetMessages [.HumanChatMessage "", .FunctionChatMessage "f" ""],
            .AddUserMessage ""] (emptyStore "test-table" "chat_id")) :=
  (reachable_store_well_formed "test-table" "chat_id" "42" .TODO .TODO
    [.AddMessage (.SystemChatMessage "be brief"),
      .SetMessages [.HumanChatMessage "", .FunctionChatMessage "f" ""],
      .AddUserMessage ""] (emptyStore "test-table" "chat_id")
    (by
      intro n t k hn
      unfold emptyStore at hn
      split at hn
      · cases hn; rfl
      · cases hn)).2.1

end DynamoDBChatHistory
